import Mathlib

/-
Verification development for the PDF placeholder substitution engine of the
certificate server (app/routes/generate_routes.py and the batch send loop of
app/routes/email_routes.py), as a shallow embedding: coordinates are exact
rationals, the PyMuPDF page is its "dict" extraction (blocks / lines / spans),
and the two fallible insertion primitives are driven by explicit failure
oracles.
-/

namespace CertSpec

/-- Axis-aligned rectangle with rational coordinates, mirroring fitz.Rect. -/
structure Rect where
  x0 : ℚ
  y0 : ℚ
  x1 : ℚ
  y1 : ℚ
deriving DecidableEq

/-- Width of a rectangle, as used on span bounding boxes (x1 - x0). -/
def Rect.width (r : Rect) : ℚ := r.x1 - r.x0

/-- Top-left corner of a rectangle, mirroring fitz.Rect.tl. -/
def Rect.tl (r : Rect) : ℚ × ℚ := (r.x0, r.y0)

/-- Styled text run of page.get_text("dict"): one span, with its text, its
bounding box, its font size, its font name and its color. -/
structure Span where
  text : List Char
  bbox : Rect
  size : ℚ
  font : String
  color : ℚ × ℚ × ℚ
deriving DecidableEq

/-- One line of a text block, a list of spans. -/
structure TextLine where
  spans : List Span
deriving DecidableEq

/-- One block of the page dictionary: its type tag (0 for text) and lines. -/
structure Block where
  btype : Nat
  lines : List TextLine
deriving DecidableEq

/-- The extraction of one page: its blocks. -/
structure PageContent where
  blocks : List Block
deriving DecidableEq

/-- Lazy search for the closing ">>" of the pattern "<<(.*?)>>": given the
characters after an opening "<<", the index where the first ">>" starts,
provided no newline comes first (the regex dot does not cross newlines);
none when no closing ">>" is reachable. -/
def findClose : List Char → Option Nat
  | [] => none
  | c :: rest =>
    if c = '>' ∧ rest.head? = some '>' then some 0
    else if c = '\n' then none
    else (findClose rest).map (· + 1)

/-- One piece of a span text as the scanner sees it: a plain character, or a
matched token with its start offset, end offset and captured group. -/
inductive Piece where
  | lit : Char → Piece
  | tok : Nat → Nat → List Char → Piece
deriving DecidableEq

/-- Fuelled scanner for PLACEHOLDER_RE.finditer: at each position, a match
starts when "<<" is read and a closing ">>" is reachable; the match consumes
up to the first ">>", scanning resumes after it; otherwise one character is
consumed as plain text. The fuel only bounds recursion depth. -/
def tokF : Nat → List Char → Nat → List Piece
  | 0, _, _ => []
  | _ + 1, [], _ => []
  | fuel + 1, c :: rest, i =>
    if c = '<' ∧ rest.head? = some '<' then
      match findClose rest.tail with
      | some j =>
          Piece.tok i (i + j + 4) (rest.tail.take j)
            :: tokF fuel (rest.tail.drop (j + 2)) (i + j + 4)
      | none => Piece.lit c :: tokF fuel rest (i + 1)
    else Piece.lit c :: tokF fuel rest (i + 1)

/-- Scanner for PLACEHOLDER_RE.finditer over a span text, with enough fuel. -/
def tokenize (t : List Char) (i : Nat) : List Piece := tokF (t.length + 1) t i

/-- All matches of PLACEHOLDER_RE in a span text, as (start, end, group). -/
def scanMatches (t : List Char) : List (Nat × Nat × List Char) :=
  (tokenize t 0).filterMap fun p =>
    match p with
    | .tok s e g => some (s, e, g)
    | .lit _ => none

/-- Python str.strip on a character list: whitespace dropped at both ends. -/
def pyStrip (l : List Char) : List Char :=
  ((l.dropWhile Char.isWhitespace).reverse.dropWhile Char.isWhitespace).reverse

/-- First-match association lookup, modelling Python dict access. -/
def lookupStr : List (String × String) → String → Option String
  | [], _ => none
  | (k, v) :: rest, key => if k = key then some v else lookupStr rest key

/-- Python row.get(col, "") of the code: the row value for a column, default
the empty string. -/
def rowGet (row : List (String × String)) (col : String) : String :=
  (lookupStr row col).getD ""

/-- Key resolution of generate_routes lines 42-51: trim the captured group,
look it up in the mapping; on a hit fetch the row value of the mapped column
and trim it; none when the key is unmapped or the trimmed value is empty. -/
def resolve (mappings row : List (String × String)) (g : List Char) : Option String :=
  match lookupStr mappings (String.mk (pyStrip g)) with
  | none => none
  | some col =>
    let v := String.mk (pyStrip (rowGet row col).data)
    if v = "" then none else some v

/-- One resolved placeholder occurrence as built in generate_routes 69-76. -/
structure Occurrence where
  key : String
  rect : Rect
  insert_rect : Rect
  text : String
  fontsize : ℚ
  fontname : String
  color : ℚ × ℚ × ℚ
deriving DecidableEq

/-- Geometry and style of one occurrence, generate_routes lines 53-76: uniform
per-character width, source rectangle from start to end offset at the span's
vertical extent, insertion rectangle expanded by fixed margins and by the
replacement length times 1.5 characters, style from the span except for the
color, which the code fixes to black. -/
def mkOccurrence (span : Span) (s e : Nat) (key text : String) : Occurrence :=
  let total_chars : ℚ := ((max span.text.length 1 : ℕ) : ℚ)
  let char_width : ℚ := span.bbox.width / total_chars
  let x0 : ℚ := span.bbox.x0 + char_width * (s : ℚ)
  let x1 : ℚ := span.bbox.x0 + char_width * (e : ℚ)
  { key := key
    rect := ⟨x0, span.bbox.y0, x1, span.bbox.y1⟩
    insert_rect := ⟨x0 - 2, span.bbox.y0 - 2,
      x1 + char_width * (text.length : ℚ) * (3 / 2), span.bbox.y1 + 2⟩
    text := text
    fontsize := span.size
    fontname := span.font
    color := (0, 0, 0) }

/-- The occurrence a single match yields: none when the key is unmapped or the
value empty, otherwise the occurrence with computed geometry. -/
def occOfMatch (mappings row : List (String × String)) (span : Span) :
    Nat × Nat × List Char → Option Occurrence
  | (s, e, g) =>
    (resolve mappings row g).map fun text =>
      mkOccurrence span s e (String.mk (pyStrip g)) text

/-- All occurrences a span contributes, in match order. -/
def spanOccurrences (mappings row : List (String × String)) (span : Span) :
    List Occurrence :=
  (scanMatches span.text).filterMap (occOfMatch mappings row span)

/-- First pass over a page, generate_routes 30-77: every span of every line of
every text block is scanned, non-text blocks are skipped. -/
def pageOccurrences (mappings row : List (String × String)) (p : PageContent) :
    List Occurrence :=
  p.blocks.flatMap fun b =>
    if b.btype = 0 then
      b.lines.flatMap fun ln => ln.spans.flatMap (spanOccurrences mappings row)
    else []

/-- Outcome of inserting one occurrence: primary textbox placement, fallback
placement, or a double failure that is only logged. -/
inductive InsertOutcome where
  | primary
  | fallback
  | lostLogged
deriving DecidableEq

/-- Page-mutating calls the engine issues, with their arguments. -/
inductive PdfOp where
  | addRedactAnnot : Rect → Option (ℚ × ℚ × ℚ) → PdfOp
  | applyRedactions : Nat → PdfOp
  | insertTextbox : Rect → String → ℚ → String → (ℚ × ℚ × ℚ) → Nat → PdfOp
  | insertText : (ℚ × ℚ) → String → ℚ → String → (ℚ × ℚ × ℚ) → PdfOp
deriving DecidableEq

/-- PyMuPDF constant: do not redact images. -/
def PDF_REDACT_IMAGE_NONE : Nat := 0

/-- The primary insertion call, generate_routes 89-96: the replacement text
into the expanded rectangle with the occurrence's style, align 0 (left). -/
def primaryCall (o : Occurrence) : PdfOp :=
  .insertTextbox o.insert_rect o.text o.fontsize o.fontname o.color 0

/-- The fallback insertion call, generate_routes 102-108: the top-left corner
shifted down by one font size, generic helv font, black color. -/
def fallbackCall (o : Occurrence) : PdfOp :=
  .insertText (o.insert_rect.x0, o.insert_rect.y0 + o.fontsize) o.text
    o.fontsize "helv" (0, 0, 0)

/-- The primary insert_textbox attempt; the oracle pf tells which occurrences
make the library raise. -/
def tryPrimary (pf : Occurrence → Bool) (o : Occurrence) : Except String Unit :=
  if pf o then .error "textbox insertion failed" else .ok ()

/-- The fallback insert_text attempt, driven by its own failure oracle. -/
def tryFallback (ff : Occurrence → Bool) (o : Occurrence) : Except String Unit :=
  if ff o then .error "fallback insertion failed" else .ok ()

/-- One iteration of the third pass, generate_routes 87-111: try the primary
placement; on an exception fall back; when the fallback also raises, the inner
handler catches the exception and only prints it, so the iteration still
returns normally. -/
def insertOccurrence (pf ff : Occurrence → Bool) (o : Occurrence) :
    Except String InsertOutcome :=
  match tryPrimary pf o with
  | .ok _ => .ok .primary
  | .error _ =>
    match tryFallback ff o with
    | .ok _ => .ok .fallback
    | .error _ => .ok .lostLogged

/-- The pure outcome of one insertion under the two failure oracles. -/
def insertOutcome (pf ff : Occurrence → Bool) (o : Occurrence) : InsertOutcome :=
  if pf o then (if ff o then .lostLogged else .fallback) else .primary

/-- The whole third pass over a page's occurrences; an exception escaping one
iteration would abort the loop and propagate, which this recursion models by
short-circuiting on an error value. -/
def thirdPass (pf ff : Occurrence → Bool) : List Occurrence → Except String (List InsertOutcome)
  | [] => .ok []
  | o :: rest =>
    match insertOccurrence pf ff o with
    | .error e => .error e
    | .ok x =>
      match thirdPass pf ff rest with
      | .error e => .error e
      | .ok xs => .ok (x :: xs)

/-- Drawing calls one occurrence's insertion issues: always the primary
textbox call, then the fallback call when the primary raised. -/
def insertOps (pf : Occurrence → Bool) (o : Occurrence) : List PdfOp :=
  primaryCall o :: (if pf o then [fallbackCall o] else [])

/-- Operation trace of one page, generate_routes 28-111: collect occurrences,
register one transparent redaction per occurrence, apply all redactions of the
page in one call, then run the insertion pass. -/
def processPageOps (pf : Occurrence → Bool) (mappings row : List (String × String))
    (p : PageContent) : List PdfOp :=
  let occs := pageOccurrences mappings row p
  (occs.map fun o => PdfOp.addRedactAnnot o.rect none)
    ++ PdfOp.applyRedactions PDF_REDACT_IMAGE_NONE :: occs.flatMap (insertOps pf)

/-- Recognizer for the redaction commit operation. -/
def isApplyOp : PdfOp → Bool
  | .applyRedactions _ => true
  | _ => false

/-- Recognizer for the two text insertion operations. -/
def isInsertOp : PdfOp → Bool
  | .insertTextbox _ _ _ _ _ _ => true
  | .insertText _ _ _ _ _ => true
  | _ => false

/-- The pattern occurs as a contiguous segment of a character list. -/
def occursIn (pat s : List Char) : Prop := ∃ a b, s = a ++ pat ++ b

/-- Modelled from the spec: the text-level effect of redaction plus
reinsertion on one scanned piece (the PDF library's page rendering is not in
src/) — a resolved token's characters are replaced by the replacement string,
an unresolved token and plain characters stay verbatim. -/
def renderPiece (f : List Char → Option String) : Piece → List Char
  | .lit c => [c]
  | .tok _ _ g =>
    match f g with
    | some rep => rep.data
    | none => '<' :: '<' :: (g ++ ['>', '>'])

/-- Modelled from the spec: the extracted text of one span after the engine
processed its page. -/
def renderedSpanText (mappings row : List (String × String)) (span : Span) :
    List Char :=
  ((tokenize span.text 0).map (renderPiece (resolve mappings row))).flatten

/-- Modelled from the spec: the extracted visible text strings of one page of
the output document. -/
def renderedPageTexts (mappings row : List (String × String)) (p : PageContent) :
    List (List Char) :=
  p.blocks.flatMap fun b =>
    if b.btype = 0 then
      b.lines.flatMap fun ln => ln.spans.map (renderedSpanText mappings row)
    else []

/-- Modelled from the spec: the extracted visible text strings of the whole
output document. -/
def renderedDocTexts (mappings row : List (String × String))
    (doc : List PageContent) : List (List Char) :=
  doc.flatMap (renderedPageTexts mappings row)

/-- One CSV row as the send_certificates loop sees it: the raw email cell
(blank means missing) and the outcomes of the two outside effects; a some
value is the exception text of a failing PDF generation or Gmail send. -/
structure BatchRow where
  email : String
  pdfErr : Option String
  sendErr : Option String
deriving DecidableEq

/-- Outcome of one iteration of the send_certificates loop, email_routes
245-291: none on success, some per-row failure description otherwise. -/
def processRow (idx : Nat) (r : BatchRow) : Option String :=
  if pyStrip r.email.data = [] then
    some ("Row " ++ toString (idx + 1) ++ ": Missing email")
  else
    match r.pdfErr with
    | some e => some ("Row " ++ toString (idx + 1) ++ ": PDF generation failed - " ++ e)
    | none =>
      match r.sendErr with
      | some e => some ("Row " ++ toString (idx + 1) ++ ": Email failed - " ++ e)
      | none => none

/-- The send_certificates batch loop from row index idx on: the success count
and the failure descriptions, in row order. -/
def batchLoop : List BatchRow → Nat → Nat × List String
  | [], _ => (0, [])
  | r :: rest, idx =>
    let acc := batchLoop rest (idx + 1)
    match processRow idx r with
    | some msg => (acc.1, msg :: acc.2)
    | none => (acc.1 + 1, acc.2)

/-- Output filename of one row's certificate, email_routes line 252. -/
def certName (idx : Nat) : String := "certificate_" ++ toString (idx + 1) ++ ".pdf"

/-- Writing a file into a directory listing: create it or overwrite it. -/
def insertFile (dir : List String) (name : String) : List String :=
  if name ∈ dir then dir else name :: dir

/-- Contents of OUTPUT_DIR after the batch loop, before the final cleanup:
a successfully sent row's file is removed right after sending, a failed send
keeps its file for debugging, a failed generation creates none. -/
def batchFiles : List BatchRow → Nat → List String → List String
  | [], _, dir => dir
  | r :: rest, idx, dir =>
    if pyStrip r.email.data = [] then batchFiles rest (idx + 1) dir
    else
      match r.pdfErr with
      | some _ => batchFiles rest (idx + 1) dir
      | none =>
        let dir1 := insertFile dir (certName idx)
        match r.sendErr with
        | none => batchFiles rest (idx + 1) (dir1.erase (certName idx))
        | some _ => batchFiles rest (idx + 1) dir1

/-- The final cleanup pass, email_routes 294-297: walk the directory listing
and remove every file in it. -/
def cleanupFiles (dir : List String) : List String :=
  dir.foldl (fun d f => d.erase f) dir

/-- Directory contents of OUTPUT_DIR when send_certificates returns. -/
def sendCertificatesFiles (rows : List BatchRow) (dir : List String) : List String :=
  cleanupFiles (batchFiles rows 0 dir)

lemma occursIn_cons_elim {pat : List Char} {c : Char} {s : List Char}
    (h : occursIn pat (c :: s)) :
    (∃ b, pat ++ b = c :: s) ∨ occursIn pat s := by
  obtain ⟨a, b, hab⟩ := h
  cases a with
  | nil => exact Or.inl ⟨b, hab.symm⟩
  | cons d a' =>
    right
    refine ⟨a', b, ?_⟩
    simpa using congrArg List.tail hab

lemma not_occursIn_gtgt_single : ¬ occursIn ['>', '>'] ['>'] := by
  rintro ⟨a, b, h⟩
  have := congrArg List.length h
  simp [List.length_append] at this
  omega

lemma findClose_zero {l : List Char} (h : findClose l = some 0) :
    ∃ rs, l = '>' :: rs := by
  cases l with
  | nil => simp [findClose] at h
  | cons c rest =>
    simp only [findClose] at h
    split_ifs at h with h1 h2
    · exact ⟨rest, by rw [h1.1]⟩
    · rw [Option.map_eq_some'] at h
      obtain ⟨a, _, ha⟩ := h
      omega

lemma findClose_spec : ∀ (l : List Char) (j : Nat), findClose l = some j →
    j + 2 ≤ l.length ∧ l.take (j + 2) = l.take j ++ ['>', '>'] ∧
    (∀ c ∈ l.take j, c ≠ '\n') ∧ ¬ occursIn ['>', '>'] (l.take j ++ ['>']) := by
  intro l
  induction l with
  | nil => intro j h; simp [findClose] at h
  | cons c rest ih =>
    intro j h
    simp only [findClose] at h
    split_ifs at h with h1 h2
    · obtain ⟨rfl⟩ : 0 = j := Option.some.inj h
      obtain ⟨r0, rest', rfl⟩ : ∃ r0 rest', rest = r0 :: rest' := by
        cases rest with
        | nil => simp at h1
        | cons a b => exact ⟨a, b, rfl⟩
      have hr0 : r0 = '>' := by simpa using h1.2
      refine ⟨by simp, ?_, by simp, ?_⟩
      · simp [h1.1, hr0, List.take]
      · simpa using not_occursIn_gtgt_single
    · rw [Option.map_eq_some'] at h
      obtain ⟨j', hj', rfl⟩ := h
      obtain ⟨B, T, NL, NO⟩ := ih j' hj'
      have htake : (c :: rest).take (j' + 1) = c :: rest.take j' := rfl
      refine ⟨by simp; omega, ?_, ?_, ?_⟩
      · show (c :: rest).take (j' + 1 + 2) = (c :: rest).take (j' + 1) ++ ['>', '>']
        have : (c :: rest).take (j' + 1 + 2) = c :: rest.take (j' + 2) := rfl
        rw [this, htake, T]
        simp
      · intro x hx
        rw [htake] at hx
        rcases List.mem_cons.mp hx with rfl | hx'
        · exact h2
        · exact NL x hx'
      · rw [htake]
        intro hocc
        have : occursIn ['>', '>'] (c :: (rest.take j' ++ ['>'])) := by
          simpa using hocc
        rcases occursIn_cons_elim this with ⟨b, hb⟩ | htl
        · have hc : c = '>' := (List.cons.inj hb).1.symm
          have hrest : rest.take j' ++ ['>'] = '>' :: b := ((List.cons.inj hb).2).symm
          have hh : rest.head? ≠ some '>' := fun hcon => h1 ⟨hc, hcon⟩
          cases hj0 : j' with
          | zero =>
            subst hj0
            obtain ⟨rs, rfl⟩ := findClose_zero hj'
            exact hh rfl
          | succ k =>
            subst hj0
            cases rest with
            | nil => simp at B
            | cons r0 rs =>
              have : r0 = '>' := by
                have := (List.cons.inj (by simpa [List.take] using hrest)).1
                exact this
              exact hh (by simp [this])
        · exact NO htl

lemma tokF_tok_sound : ∀ (fuel : Nat) (t : List Char) (i s e : Nat) (g : List Char),
    Piece.tok s e g ∈ tokF fuel t i →
    i ≤ s ∧ e = s + g.length + 4 ∧ e ≤ i + t.length ∧
    (t.drop (s - i)).take (e - s) = '<' :: '<' :: (g ++ ['>', '>']) ∧
    ¬ occursIn ['>', '>'] (g ++ ['>']) ∧ ∀ c ∈ g, c ≠ '\n' := by
  intro fuel
  induction fuel with
  | zero => intro t i s e g h; simp [tokF] at h
  | succ fuel ih =>
    intro t i s e g h
    cases t with
    | nil => simp [tokF] at h
    | cons c rest =>
      rw [tokF] at h
      split_ifs at h with h1
      · obtain ⟨c2, rest2, rfl⟩ : ∃ c2 rest2, rest = c2 :: rest2 := by
          cases rest with
          | nil => simp at h1
          | cons a b => exact ⟨a, b, rfl⟩
        have hc : c = '<' := h1.1
        have hc2 : c2 = '<' := by simpa using h1.2
        simp only [List.tail_cons] at h
        cases hfc : findClose rest2 with
        | some j =>
          rw [hfc] at h
          obtain ⟨B, T, NL, NO⟩ := findClose_spec rest2 j hfc
          have hglen : (rest2.take j).length = j := by
            rw [List.length_take]
            omega
          rcases List.mem_cons.mp h with hhead | htail
          · obtain ⟨rfl, rfl, rfl⟩ :
                s = i ∧ e = i + j + 4 ∧ g = rest2.take j := by
              have := Piece.tok.inj hhead.symm
              exact ⟨this.1.symm, this.2.1.symm, this.2.2.symm⟩
            refine ⟨le_refl _, by omega, by simp; omega, ?_, NO, NL⟩
            have he : s + j + 4 - s = j + 4 := by omega
            have hs : s - s = 0 := by omega
            rw [he, hs, List.drop_zero]
            show c :: c2 :: rest2.take (j + 2) = '<' :: '<' :: (rest2.take j ++ ['>', '>'])
            rw [hc, hc2, T]
          · obtain ⟨IH1, IH2, IH3, IH4, IH5, IH6⟩ := ih _ _ _ _ _ htail
            have hlen : (rest2.drop (j + 2)).length = rest2.length - (j + 2) := by
              rw [List.length_drop]
            refine ⟨by omega, IH2, by simp; omega, ?_, IH5, IH6⟩
            obtain ⟨k, hk⟩ : ∃ k, s - i = k + 2 := ⟨s - i - 2, by omega⟩
            have hdrop1 : (c :: c2 :: rest2).drop (s - i) = rest2.drop k := by
              rw [hk]; rfl
            have hdrop2 : (rest2.drop (j + 2)).drop (s - (i + j + 4)) = rest2.drop k := by
              rw [List.drop_drop]
              congr 1
              omega
            rw [hdrop1, ← hdrop2]
            exact IH4
        | none =>
          rw [hfc] at h
          rcases List.mem_cons.mp h with hhead | htail
          · exact absurd hhead (by simp)
          · obtain ⟨IH1, IH2, IH3, IH4, IH5, IH6⟩ := ih _ _ _ _ _ htail
            refine ⟨by omega, IH2, by simp at IH3 ⊢; omega, ?_, IH5, IH6⟩
            obtain ⟨k, hk⟩ : ∃ k, s - i = k + 1 := ⟨s - i - 1, by omega⟩
            have hdrop1 : (c :: c2 :: rest2).drop (s - i) = (c2 :: rest2).drop k := by
              rw [hk]; rfl
            have hk2 : s - (i + 1) = k := by omega
            rw [hdrop1, ← hk2]
            exact IH4
      · rcases List.mem_cons.mp h with hhead | htail
        · exact absurd hhead (by simp)
        · obtain ⟨IH1, IH2, IH3, IH4, IH5, IH6⟩ := ih _ _ _ _ _ htail
          refine ⟨by omega, IH2, by simp at IH3 ⊢; omega, ?_, IH5, IH6⟩
          obtain ⟨k, hk⟩ : ∃ k, s - i = k + 1 := ⟨s - i - 1, by omega⟩
          have hdrop1 : (c :: rest).drop (s - i) = rest.drop k := by
            rw [hk]; rfl
          have hk2 : s - (i + 1) = k := by omega
          rw [hdrop1, ← hk2]
          exact IH4

lemma scanMatches_sound {t : List Char} {s e : Nat} {g : List Char}
    (h : (s, e, g) ∈ scanMatches t) :
    Piece.tok s e g ∈ tokenize t 0 ∧
    e = s + g.length + 4 ∧ e ≤ t.length ∧
    (t.drop s).take (e - s) = '<' :: '<' :: (g ++ ['>', '>']) ∧
    ¬ occursIn ['>', '>'] (g ++ ['>']) ∧ ∀ c ∈ g, c ≠ '\n' := by
  obtain ⟨p, hp, hps⟩ := List.mem_filterMap.mp h
  cases p with
  | lit c => simp at hps
  | tok a b d =>
    obtain ⟨rfl, rfl, rfl⟩ : a = s ∧ b = e ∧ d = g := by simpa using hps
    have H := tokF_tok_sound _ _ _ _ _ _ hp
    refine ⟨hp, H.2.1, by simpa using H.2.2.1, ?_, H.2.2.2.2.1, H.2.2.2.2.2⟩
    simpa using H.2.2.2.1

lemma renderPiece_occursIn {L : List Piece} {p : Piece} (f : List Char → Option String)
    (hp : p ∈ L) :
    occursIn (renderPiece f p) ((L.map (renderPiece f)).flatten) := by
  obtain ⟨l1, l2, rfl⟩ := List.append_of_mem hp
  refine ⟨(l1.map (renderPiece f)).flatten, (l2.map (renderPiece f)).flatten, ?_⟩
  simp

lemma spanOccurrences_inv {mappings row : List (String × String)} {span : Span}
    {o : Occurrence} (h : o ∈ spanOccurrences mappings row span) :
    ∃ s e g text, (s, e, g) ∈ scanMatches span.text ∧
      resolve mappings row g = some text ∧
      o = mkOccurrence span s e (String.mk (pyStrip g)) text := by
  obtain ⟨m, hm, hmo⟩ := List.mem_filterMap.mp h
  obtain ⟨s, e, g⟩ := m
  simp only [occOfMatch, Option.map_eq_some'] at hmo
  obtain ⟨text, htext, rfl⟩ := hmo
  exact ⟨s, e, g, text, hm, htext, rfl⟩

lemma insertOccurrence_ok (pf ff : Occurrence → Bool) (o : Occurrence) :
    insertOccurrence pf ff o = Except.ok (insertOutcome pf ff o) := by
  unfold insertOccurrence tryPrimary tryFallback insertOutcome
  by_cases h1 : pf o <;> by_cases h2 : ff o <;> simp [h1, h2]

lemma thirdPass_ok (pf ff : Occurrence → Bool) (occs : List Occurrence) :
    thirdPass pf ff occs = Except.ok (occs.map (insertOutcome pf ff)) := by
  induction occs with
  | nil => rfl
  | cons o rest ih =>
    rw [thirdPass, insertOccurrence_ok, ih]
    rfl

/-- Failure oracle making every insertion attempt raise. -/
def allFail : Occurrence → Bool := fun _ => true

/-- First sample occurrence for the double-failure run. -/
def oC1a : Occurrence := ⟨"N", ⟨0, 0, 1, 1⟩, ⟨0, 0, 2, 2⟩, "X", 12, "helv", (0, 0, 0)⟩

/-- Second sample occurrence for the double-failure run. -/
def oC1b : Occurrence := ⟨"M", ⟨0, 1, 1, 2⟩, ⟨0, 1, 2, 3⟩, "Y", 12, "helv", (0, 0, 0)⟩

/-- Claim C1, counterexample: on a page with two occurrences whose primary
and fallback insertions all fail, the third pass still returns normally —
no insertion error reaches the caller even though both attempts for the
first occurrence raised, so the replacement text is lost with only a log. -/
theorem C1_cex_double_failure_swallowed :
    thirdPass allFail allFail [oC1a, oC1b] =
      Except.ok [InsertOutcome.lostLogged, InsertOutcome.lostLogged] ∧
    tryPrimary allFail oC1a = Except.error "textbox insertion failed" ∧
    tryFallback allFail oC1a = Except.error "fallback insertion failed" := by
  refine ⟨?_, rfl, rfl⟩
  rw [thirdPass_ok]
  rfl

/-- Claim C1 (amended): when both the primary textbox insertion and the
fallback insertion fail for an occurrence, the exception is caught and only
logged — no insertion error propagates to the caller of the page loop, the
occurrence's outcome is a logged loss of the replacement text — and the
remaining occurrences on the page are all still attempted, each with its own
outcome. -/
theorem C1_no_insertion_error_propagates (pf ff : Occurrence → Bool)
    (occs : List Occurrence) :
    thirdPass pf ff occs = Except.ok (occs.map (insertOutcome pf ff)) ∧
    ∀ o ∈ occs, pf o = true → ff o = true →
      insertOutcome pf ff o = InsertOutcome.lostLogged := by
  refine ⟨thirdPass_ok pf ff occs, ?_⟩
  intro o _ hpf hff
  simp [insertOutcome, hpf, hff]

/-- Witness for the amended C1 at a concrete occurrence list. -/
theorem C1_witness :
    (oC1a ∈ [oC1a, oC1b]) ∧ allFail oC1a = true ∧
    insertOutcome allFail allFail oC1a = InsertOutcome.lostLogged ∧
    thirdPass allFail allFail [oC1a, oC1b] =
      Except.ok ([oC1a, oC1b].map (insertOutcome allFail allFail)) :=
  ⟨List.mem_cons_self _ _, rfl,
    (C1_no_insertion_error_propagates allFail allFail [oC1a, oC1b]).2 oC1a
      (List.mem_cons_self _ _) rfl rfl,
    (C1_no_insertion_error_propagates allFail allFail [oC1a, oC1b]).1⟩

/-- Sample span whose color is red, for the color counterexample. -/
def spanC2 : Span := ⟨"<<Name>>".data, ⟨0, 0, 8, 1⟩, 12, "helv", (1, 0, 0)⟩

/-- Sample mapping for the color counterexample. -/
def mC2 : List (String × String) := [("Name", "Full")]

/-- Sample row for the color counterexample. -/
def rowC2 : List (String × String) := [("Full", "Alice")]

/-- Claim C2, counterexample: a span whose detected color is red produces an
occurrence whose color — the one the primary insertion call uses — is black,
not the span's color: the code fixes color to (0,0,0). -/
theorem C2_cex_color_not_from_span :
    (spanOccurrences mC2 rowC2 spanC2).map (fun o => o.color) = [(0, 0, 0)] ∧
    spanC2.color = (1, 0, 0) ∧
    ((0 : ℚ), (0 : ℚ), (0 : ℚ)) ≠ ((1 : ℚ), (0 : ℚ), (0 : ℚ)) := by
  refine ⟨rfl, rfl, fun h => ?_⟩
  have h0 : (0 : ℚ) = 1 := congrArg Prod.fst h
  norm_num at h0

/-- Claim C2 (amended): for every occurrence, the primary insertion writes
the replacement text into insert_rect via insert_textbox, left-aligned
(align 0), using the span's font name and the span's font size, but with the
color fixed to black (0,0,0) regardless of the span's detected color. -/
theorem C2_primary_call_style (mappings row : List (String × String))
    (span : Span) (o : Occurrence) (ho : o ∈ spanOccurrences mappings row span) :
    o.fontname = span.font ∧ o.fontsize = span.size ∧ o.color = (0, 0, 0) ∧
    primaryCall o =
      PdfOp.insertTextbox o.insert_rect o.text span.size span.font (0, 0, 0) 0 := by
  obtain ⟨s, e, g, text, _, _, rfl⟩ := spanOccurrences_inv ho
  exact ⟨rfl, rfl, rfl, rfl⟩

/-- Witness for the amended C2 at a concrete span, mapping and row. -/
theorem C2_witness :
    (mkOccurrence spanC2 0 8 "Name" "Alice" ∈ spanOccurrences mC2 rowC2 spanC2) ∧
    ((mkOccurrence spanC2 0 8 "Name" "Alice").fontname = spanC2.font ∧
     (mkOccurrence spanC2 0 8 "Name" "Alice").fontsize = spanC2.size ∧
     (mkOccurrence spanC2 0 8 "Name" "Alice").color = (0, 0, 0) ∧
     primaryCall (mkOccurrence spanC2 0 8 "Name" "Alice") =
       PdfOp.insertTextbox (mkOccurrence spanC2 0 8 "Name" "Alice").insert_rect
         (mkOccurrence spanC2 0 8 "Name" "Alice").text spanC2.size spanC2.font
         (0, 0, 0) 0) :=
  have hmem : mkOccurrence spanC2 0 8 "Name" "Alice" ∈ spanOccurrences mC2 rowC2 spanC2 := by
    have h : spanOccurrences mC2 rowC2 spanC2 = [mkOccurrence spanC2 0 8 "Name" "Alice"] := rfl
    rw [h]
    exact List.mem_singleton.mpr rfl
  ⟨hmem, C2_primary_call_style mC2 rowC2 spanC2 _ hmem⟩

/-- Claim C3: a match whose trimmed key is absent from the mapping, or whose
value resolved through the mapped column trims to the empty string, creates
no occurrence — hence no redaction is registered for it — and the literal
token stays verbatim in the span's extracted output text. -/
theorem C3_skip_keeps_token (mappings row : List (String × String)) (span : Span)
    (s e : Nat) (g : List Char)
    (hmem : (s, e, g) ∈ scanMatches span.text)
    (hskip : lookupStr mappings (String.mk (pyStrip g)) = none ∨
      ∃ col, lookupStr mappings (String.mk (pyStrip g)) = some col ∧
        pyStrip (rowGet row col).data = []) :
    occOfMatch mappings row span (s, e, g) = none ∧
    occursIn ('<' :: '<' :: (g ++ ['>', '>'])) (renderedSpanText mappings row span) := by
  have hres : resolve mappings row g = none := by
    rcases hskip with h | ⟨col, hcol, hval⟩
    · simp [resolve, h]
    · simp [resolve, hcol, hval]
  constructor
  · simp [occOfMatch, hres]
  · have hp : Piece.tok s e g ∈ tokenize span.text 0 := (scanMatches_sound hmem).1
    have H := renderPiece_occursIn (resolve mappings row) hp
    simpa [renderedSpanText, renderPiece, hres] using H

/-- Witness for C3: with mapping Name to Full and an empty row, the token
of an unmapped key Other creates no occurrence and survives in the output. -/
theorem C3_witness :
    ((0, 9, "Other".data) ∈ scanMatches "<<Other>>".data) ∧
    (occOfMatch [("Name", "Full")] []
        ⟨"<<Other>>".data, ⟨0, 0, 9, 1⟩, 12, "helv", (0, 0, 0)⟩ (0, 9, "Other".data) = none ∧
      occursIn ('<' :: '<' :: ("Other".data ++ ['>', '>']))
        (renderedSpanText [("Name", "Full")] []
          ⟨"<<Other>>".data, ⟨0, 0, 9, 1⟩, 12, "helv", (0, 0, 0)⟩)) :=
  ⟨by decide,
    C3_skip_keeps_token [("Name", "Full")] []
      ⟨"<<Other>>".data, ⟨0, 0, 9, 1⟩, 12, "helv", (0, 0, 0)⟩ 0 9 "Other".data
      (by decide) (Or.inl (by decide))⟩

/-- Claim C4: placeholder matching is non-greedy — every match of
PLACEHOLDER_RE occupies a segment of the span text of the form two angle
brackets, the captured group, then the first subsequent closing brackets (so
no earlier ">>" occurs inside the match), the occurrence key is the trimmed
text between the brackets, and the adjacent tokens of "<<A>><<B>>" yield two
independent matches and two independent occurrences, never one spanning
match. -/
theorem C4_nongreedy_matching :
    (∀ (t : List Char) (s e : Nat) (g : List Char), (s, e, g) ∈ scanMatches t →
      (t.drop s).take (e - s) = '<' :: '<' :: (g ++ ['>', '>']) ∧
      e = s + g.length + 4 ∧
      ¬ occursIn ['>', '>'] (g ++ ['>']) ∧
      ∀ (m row : List (String × String)) (span : Span) (o : Occurrence),
        occOfMatch m row span (s, e, g) = some o → o.key = String.mk (pyStrip g)) ∧
    scanMatches "<<A>><<B>>".data = [(0, 5, ['A']), (5, 10, ['B'])] ∧
    (spanOccurrences [("A", "X"), ("B", "Y")] [("X", "1"), ("Y", "2")]
        ⟨"<<A>><<B>>".data, ⟨0, 0, 10, 1⟩, 12, "helv", (0, 0, 0)⟩).map
      (fun o => o.text) = ["1", "2"] := by
  refine ⟨?_, by decide, rfl⟩
  intro t s e g h
  have H := scanMatches_sound h
  refine ⟨H.2.2.2.1, H.2.1, H.2.2.2.2.1, ?_⟩
  intro m row span o ho
  simp only [occOfMatch, Option.map_eq_some'] at ho
  obtain ⟨text, _, rfl⟩ := ho
  rfl

/-- Witness for C4 at the first match of the adjacent-token input. -/
theorem C4_witness :
    ((0, 5, ['A']) ∈ scanMatches "<<A>><<B>>".data) ∧
    ("<<A>><<B>>".data.drop 0).take (5 - 0) = '<' :: '<' :: (['A'] ++ ['>', '>']) ∧
    5 = 0 + ['A'].length + 4 :=
  have h : (0, 5, ['A']) ∈ scanMatches "<<A>><<B>>".data := by decide
  have H := C4_nongreedy_matching.1 "<<A>><<B>>".data 0 5 ['A'] h
  ⟨h, H.1, H.2.1⟩

/-- Membership in the drawing calls of one insertion is an insertion op. -/
lemma isInsertOp_insertOps {pf : Occurrence → Bool} {o : Occurrence} {op : PdfOp}
    (h : op ∈ insertOps pf o) : isInsertOp op = true := by
  rcases List.mem_cons.mp h with rfl | h2
  · rfl
  · split at h2
    · obtain rfl := List.mem_singleton.mp h2
      rfl
    · simp at h2

/-- Claim C5: processing of one page is two-phase — all occurrences of the
page are collected first, then exactly one transparent (fill none) redaction
is registered per occurrence's source rectangle, all the page's redactions
are committed by one single apply call, and every text insertion operation
comes only after that commit. -/
theorem C5_two_phase_page (pf : Occurrence → Bool)
    (mappings row : List (String × String)) (p : PageContent) :
    ∃ pre post,
      processPageOps pf mappings row p =
        pre ++ PdfOp.applyRedactions PDF_REDACT_IMAGE_NONE :: post ∧
      pre = (pageOccurrences mappings row p).map
        (fun o => PdfOp.addRedactAnnot o.rect none) ∧
      post = (pageOccurrences mappings row p).flatMap (insertOps pf) ∧
      (∀ op ∈ pre, ∃ r, op = PdfOp.addRedactAnnot r none) ∧
      (∀ op ∈ post, isInsertOp op = true) ∧
      (processPageOps pf mappings row p).countP isApplyOp = 1 := by
  refine ⟨_, _, rfl, rfl, rfl, ?_, ?_, ?_⟩
  · intro op hop
    obtain ⟨o, _, rfl⟩ := List.mem_map.mp hop
    exact ⟨o.rect, rfl⟩
  · intro op hop
    obtain ⟨o, _, ho⟩ := List.mem_flatMap.mp hop
    exact isInsertOp_insertOps ho
  · show ((pageOccurrences mappings row p).map
        (fun o => PdfOp.addRedactAnnot o.rect none)
        ++ PdfOp.applyRedactions PDF_REDACT_IMAGE_NONE
          :: (pageOccurrences mappings row p).flatMap (insertOps pf)).countP isApplyOp = 1
    rw [List.countP_append, List.countP_cons]
    have h1 : ((pageOccurrences mappings row p).map
        (fun o => PdfOp.addRedactAnnot o.rect none)).countP isApplyOp = 0 := by
      rw [List.countP_eq_zero]
      intro a ha
      obtain ⟨o, _, rfl⟩ := List.mem_map.mp ha
      simp [isApplyOp]
    have h2 : ((pageOccurrences mappings row p).flatMap (insertOps pf)).countP isApplyOp = 0 := by
      rw [List.countP_eq_zero]
      intro a ha
      obtain ⟨o, _, ho⟩ := List.mem_flatMap.mp ha
      have := isInsertOp_insertOps ho
      cases a <;> simp_all [isInsertOp, isApplyOp]
    rw [h1, h2]
    rfl

/-- Claim C6: the source rectangle of every occurrence lies within the
bounding rectangle of the span that produced it — its horizontal extent
between the span's x0 and x1 and its vertical extent exactly the span's —
whenever the span's bounding box is well-formed (x0 at most x1). -/
theorem C6_sourceRect_within_span (mappings row : List (String × String))
    (span : Span) (o : Occurrence)
    (hw : span.bbox.x0 ≤ span.bbox.x1)
    (ho : o ∈ spanOccurrences mappings row span) :
    span.bbox.x0 ≤ o.rect.x0 ∧ o.rect.x0 ≤ o.rect.x1 ∧
    o.rect.x1 ≤ span.bbox.x1 ∧
    o.rect.y0 = span.bbox.y0 ∧ o.rect.y1 = span.bbox.y1 := by
  obtain ⟨s, e, g, text, hm, _, rfl⟩ := spanOccurrences_inv ho
  have H := scanMatches_sound hm
  have he4 : e = s + g.length + 4 := H.2.1
  have helen : e ≤ span.text.length := H.2.2.1
  have hmaxlen : e ≤ max span.text.length 1 := le_trans helen (Nat.le_max_left _ _)
  set X : ℚ := ((max span.text.length 1 : ℕ) : ℚ) with hX
  have hXpos : (0 : ℚ) < X := by
    rw [hX]
    exact_mod_cast Nat.lt_of_lt_of_le Nat.zero_lt_one (Nat.le_max_right _ _)
  have hwid : (0 : ℚ) ≤ span.bbox.width := by
    simp only [Rect.width]
    linarith
  set cw : ℚ := span.bbox.width / X with hcw
  have hcw0 : (0 : ℚ) ≤ cw := div_nonneg hwid hXpos.le
  have hx0 : (mkOccurrence span s e (String.mk (pyStrip g)) text).rect.x0 =
      span.bbox.x0 + cw * (s : ℚ) := rfl
  have hx1 : (mkOccurrence span s e (String.mk (pyStrip g)) text).rect.x1 =
      span.bbox.x0 + cw * (e : ℚ) := rfl
  have hse : (s : ℚ) ≤ (e : ℚ) := by exact_mod_cast Nat.le_of_lt_succ (by omega)
  have heX : (e : ℚ) ≤ X := by
    rw [hX]
    exact_mod_cast hmaxlen
  have hcwe : cw * (e : ℚ) ≤ span.bbox.width := by
    have h1 : cw * (e : ℚ) ≤ cw * X := mul_le_mul_of_nonneg_left heX hcw0
    have h2 : cw * X = span.bbox.width := by
      rw [hcw]
      exact div_mul_cancel₀ _ (ne_of_gt hXpos)
    linarith
  refine ⟨?_, ?_, ?_, rfl, rfl⟩
  · rw [hx0]
    have : (0 : ℚ) ≤ cw * (s : ℚ) := mul_nonneg hcw0 (by exact_mod_cast Nat.zero_le s)
    linarith
  · rw [hx0, hx1]
    have : cw * (s : ℚ) ≤ cw * (e : ℚ) := mul_le_mul_of_nonneg_left hse hcw0
    linarith
  · rw [hx1]
    have : span.bbox.x0 + span.bbox.width = span.bbox.x1 := by
      simp [Rect.width]
    linarith

/-- Sample span for the geometry witnesses. -/
def spanC6 : Span := ⟨"<<Name>>".data, ⟨0, 0, 8, 1⟩, 12, "helv", (0, 0, 0)⟩

/-- Sample mapping for the geometry witnesses. -/
def mC6 : List (String × String) := [("Name", "Full")]

/-- Sample row for the geometry witnesses. -/
def rowC6 : List (String × String) := [("Full", "Alice")]

/-- Witness for C6 at a concrete span, mapping and row. -/
theorem C6_witness :
    (spanC6.bbox.x0 ≤ spanC6.bbox.x1) ∧
    (mkOccurrence spanC6 0 8 "Name" "Alice" ∈ spanOccurrences mC6 rowC6 spanC6) ∧
    (spanC6.bbox.x0 ≤ (mkOccurrence spanC6 0 8 "Name" "Alice").rect.x0 ∧
     (mkOccurrence spanC6 0 8 "Name" "Alice").rect.x0 ≤
       (mkOccurrence spanC6 0 8 "Name" "Alice").rect.x1 ∧
     (mkOccurrence spanC6 0 8 "Name" "Alice").rect.x1 ≤ spanC6.bbox.x1 ∧
     (mkOccurrence spanC6 0 8 "Name" "Alice").rect.y0 = spanC6.bbox.y0 ∧
     (mkOccurrence spanC6 0 8 "Name" "Alice").rect.y1 = spanC6.bbox.y1) :=
  have hw : spanC6.bbox.x0 ≤ spanC6.bbox.x1 := by norm_num [spanC6]
  have hmem : mkOccurrence spanC6 0 8 "Name" "Alice" ∈ spanOccurrences mC6 rowC6 spanC6 := by
    have h : spanOccurrences mC6 rowC6 spanC6 = [mkOccurrence spanC6 0 8 "Name" "Alice"] := rfl
    rw [h]
    exact List.mem_singleton.mpr rfl
  ⟨hw, hmem, C6_sourceRect_within_span mC6 rowC6 spanC6 _ hw hmem⟩

/-- Claim C7: every occurrence's geometry uses the uniform per-character
width, the span's bounding-box width divided by max(len(text), 1): its source
rectangle runs from the match's start offset to its end offset at that width,
at the span's vertical extent. -/
theorem C7_uniform_width_geometry (mappings row : List (String × String))
    (span : Span) (o : Occurrence) (ho : o ∈ spanOccurrences mappings row span) :
    ∃ s e g, (s, e, g) ∈ scanMatches span.text ∧
      o.rect = ⟨span.bbox.x0 +
          span.bbox.width / ((max span.text.length 1 : ℕ) : ℚ) * (s : ℚ),
        span.bbox.y0,
        span.bbox.x0 +
          span.bbox.width / ((max span.text.length 1 : ℕ) : ℚ) * (e : ℚ),
        span.bbox.y1⟩ := by
  obtain ⟨s, e, g, text, hm, _, rfl⟩ := spanOccurrences_inv ho
  exact ⟨s, e, g, hm, rfl⟩

/-- Witness for C7 at a concrete span, mapping and row. -/
theorem C7_witness :
    (mkOccurrence spanC6 0 8 "Name" "Alice" ∈ spanOccurrences mC6 rowC6 spanC6) ∧
    (∃ s e g, (s, e, g) ∈ scanMatches spanC6.text ∧
      (mkOccurrence spanC6 0 8 "Name" "Alice").rect = ⟨spanC6.bbox.x0 +
          spanC6.bbox.width / ((max spanC6.text.length 1 : ℕ) : ℚ) * (s : ℚ),
        spanC6.bbox.y0,
        spanC6.bbox.x0 +
          spanC6.bbox.width / ((max spanC6.text.length 1 : ℕ) : ℚ) * (e : ℚ),
        spanC6.bbox.y1⟩) :=
  have hmem : mkOccurrence spanC6 0 8 "Name" "Alice" ∈ spanOccurrences mC6 rowC6 spanC6 := by
    have h : spanOccurrences mC6 rowC6 spanC6 = [mkOccurrence spanC6 0 8 "Name" "Alice"] := rfl
    rw [h]
    exact List.mem_singleton.mpr rfl
  ⟨hmem, C7_uniform_width_geometry mC6 rowC6 spanC6 _ hmem⟩

/-- Claim C8: in a batch the failures recorded are exactly one description
per failing row, in row order; every row is accounted for by either the
success count or a failure entry (so a failing row never aborts the
remaining rows); and the success count is the number of rows whose iteration
succeeded. -/
theorem C8_batch_row_isolation (rows : List BatchRow) (idx : Nat) :
    (batchLoop rows idx).2 =
      (List.enumFrom idx rows).filterMap (fun p => processRow p.1 p.2) ∧
    (batchLoop rows idx).1 + (batchLoop rows idx).2.length = rows.length ∧
    (batchLoop rows idx).1 =
      ((List.enumFrom idx rows).filter (fun p => (processRow p.1 p.2).isNone)).length := by
  induction rows generalizing idx with
  | nil => simp [batchLoop, List.enumFrom]
  | cons r rest ih =>
    obtain ⟨IH1, IH2, IH3⟩ := ih (idx + 1)
    cases hpr : processRow idx r with
    | some msg =>
      refine ⟨?_, ?_, ?_⟩
      · simp [batchLoop, hpr, List.enumFrom, List.filterMap_cons, IH1]
      · simp only [batchLoop, hpr]
        simpa using by omega
      · simp [batchLoop, hpr, List.enumFrom, List.filter_cons, IH3]
    | none =>
      refine ⟨?_, ?_, ?_⟩
      · simp [batchLoop, hpr, List.enumFrom, List.filterMap_cons, IH1]
      · simp only [batchLoop, hpr]
        simpa using by omega
      · simp [batchLoop, hpr, List.enumFrom, List.filter_cons, IH3]

/-- Claim C9: the engine is deterministic — two runs on the same document,
mapping and row extract identical visible text. -/
theorem C9_deterministic_rendering (doc1 doc2 : List PageContent)
    (m1 m2 row1 row2 : List (String × String))
    (hd : doc1 = doc2) (hm : m1 = m2) (hr : row1 = row2) :
    renderedDocTexts m1 row1 doc1 = renderedDocTexts m2 row2 doc2 := by
  rw [hd, hm, hr]

/-- Sample one-page document for the determinism witness. -/
def docC9 : List PageContent :=
  [⟨[⟨0, [⟨[⟨"<<Name>>".data, ⟨0, 0, 8, 1⟩, 12, "helv", (0, 0, 0)⟩]⟩]⟩]⟩]

/-- Witness for C9: two runs on the same concrete inputs agree. -/
theorem C9_witness :
    renderedDocTexts [("Name", "Full")] [("Full", "Alice")] docC9 =
      renderedDocTexts [("Name", "Full")] [("Full", "Alice")] docC9 :=
  C9_deterministic_rendering docC9 docC9 _ _ _ _ rfl rfl rfl

lemma foldl_erase_nil : ∀ (l acc : List String), acc.Nodup →
    (∀ x ∈ acc, x ∈ l) → List.foldl (fun d f => d.erase f) acc l = [] := by
  intro l
  induction l with
  | nil =>
    intro acc _ hsub
    cases acc with
    | nil => rfl
    | cons a as => exact absurd (hsub a (by simp)) (by simp)
  | cons x l' ih =>
    intro acc hnd hsub
    simp only [List.foldl_cons]
    apply ih
    · exact hnd.erase x
    · intro y hy
      have hy2 : y ≠ x ∧ y ∈ acc := (List.Nodup.mem_erase_iff hnd).mp hy
      rcases List.mem_cons.mp (hsub y hy2.2) with rfl | h
      · exact absurd rfl hy2.1
      · exact h

lemma insertFile_nodup {dir : List String} {name : String} (h : dir.Nodup) :
    (insertFile dir name).Nodup := by
  unfold insertFile
  split_ifs with hmem
  · exact h
  · exact List.nodup_cons.mpr ⟨hmem, h⟩

lemma batchFiles_nodup : ∀ (rows : List BatchRow) (idx : Nat) (dir : List String),
    dir.Nodup → (batchFiles rows idx dir).Nodup := by
  intro rows
  induction rows with
  | nil => intro idx dir h; exact h
  | cons r rest ih =>
    intro idx dir h
    rw [batchFiles]
    split_ifs with h1
    · exact ih _ _ h
    · cases r.pdfErr with
      | some e => exact ih _ _ h
      | none =>
        cases r.sendErr with
        | none => exact ih _ _ ((insertFile_nodup h).erase _)
        | some e => exact ih _ _ (insertFile_nodup h)

/-- Claim C10: when send_certificates returns, the generated-output directory
holds no files — the final cleanup pass removes every file the loop left
behind, including certificates of rows whose email send failed — for any
directory listing without duplicate names. -/
theorem C10_cleanup_empties_dir (rows : List BatchRow) (dir : List String)
    (h : dir.Nodup) : sendCertificatesFiles rows dir = [] := by
  unfold sendCertificatesFiles cleanupFiles
  exact foldl_erase_nil _ _ (batchFiles_nodup rows 0 dir h) (fun x hx => hx)

/-- Witness for C10: one row whose send fails leaves its certificate before
cleanup, and the directory is empty after the batch returns. -/
theorem C10_witness :
    (([] : List String).Nodup) ∧
    batchFiles [⟨"a@b.c", none, some "send failed"⟩] 0 [] = ["certificate_1.pdf"] ∧
    sendCertificatesFiles [⟨"a@b.c", none, some "send failed"⟩] [] = [] :=
  ⟨List.nodup_nil, by decide,
    C10_cleanup_empties_dir [⟨"a@b.c", none, some "send failed"⟩] [] List.nodup_nil⟩

example : scanMatches "<<A>><<B>>".data = [(0, 5, ['A']), (5, 10, ['B'])] := by decide
example : scanMatches "<<<A>>".data = [(0, 6, ['<', 'A'])] := by decide
example : scanMatches "x<<a".data = [] := by decide
example : findClose "ab>>c".data = some 2 := by decide
example : batchLoop [⟨"", none, none⟩, ⟨"a@b", none, none⟩] 0 =
    (1, ["Row 1: Missing email"]) := by decide
example : sendCertificatesFiles [⟨"a@b", none, some "boom"⟩] [] = [] := by decide
example : batchFiles [⟨"a@b", none, some "boom"⟩] 0 [] = ["certificate_1.pdf"] := by decide

end CertSpec
